import Mathlib

/-!
Shallow embedding of the image-processing engine in ip.js: the colored-pixel
and surroundedness predicates, the three channel highlighters, the horror
filter, the composite step, the CLI argument handling, and a store model of
the clone-before-filter discipline in loadFolder.
-/

/-- Reading byte i of a pixel buffer. JavaScript array indexing yields
undefined outside the index range (negative or at least the length); we model
an undefined read as none. -/
def readByte (d : List Nat) (i : Int) : Option Nat :=
  if i < 0 then none else d[i.toNat]?

/-- The comparison v > 100 as performed on a possibly undefined byte: in
JavaScript, undefined > 100 evaluates to false. -/
def byteGT100 : Option Nat → Bool
  | some v => decide (100 < v)
  | none => false

/-- Embeds isPixelColored (ip.js line 315): true if any of the three bytes at
pixel, pixel + 1, pixel + 2 exceeds 100. -/
def isPixelColored (d : List Nat) (p : Int) : Bool :=
  byteGT100 (readByte d p) || byteGT100 (readByte d (p + 1)) ||
    byteGT100 (readByte d (p + 2))

/-- Embeds the neighbour count of the threshold = 1 branch of
isPixelSurrounded (ip.js lines 270-286): guarded east, west, north and south
neighbour checks, in source order. The west and north guards are the strict
comparisons pixel - 4 > 0 and pixel - width * 4 > 0 from the source. -/
def count1 (d : List Nat) (w h : Nat) (p : Int) : Nat :=
  (decide (p + 4 < ((w * h * 4 : Nat) : Int)) && isPixelColored d (p + 4)).toNat
  + (decide (0 < p - 4) && isPixelColored d (p - 4)).toNat
  + (decide (0 < p - ((w * 4 : Nat) : Int)) &&
      isPixelColored d (p - ((w * 4 : Nat) : Int))).toNat
  + (decide (p + ((w * 4 : Nat) : Int) < ((w * h * 4 : Nat) : Int)) &&
      isPixelColored d (p + ((w * 4 : Nat) : Int))).toNat

/-- The threshold = 1 case of isPixelSurrounded: at least 2 of the four
guarded axis neighbours are colored (ip.js line 286). -/
def surrounded1 (d : List Nat) (w h : Nat) (p : Int) : Bool :=
  decide (2 ≤ count1 d w h p)

/-- Embeds the neighbour count of the threshold > 1 branch of
isPixelSurrounded (ip.js lines 289-301), with the skewed north and south
offsets of the source preserved. -/
def countR (d : List Nat) (w h : Nat) (p t : Int) : Nat :=
  (decide (p + 4 * t < ((w * h * 4 : Nat) : Int)) && isPixelColored d (p + 4 * t)).toNat
  + (decide (0 < p - 4 * t) && isPixelColored d (p - 4 * t)).toNat
  + (decide (0 < p - (((w * 4 : Nat) : Int) - t)) &&
      isPixelColored d (p - ((w * 4 : Nat) : Int) + t)).toNat
  + (decide (p + (((w * 4 : Nat) : Int) + t) < ((w * h * 4 : Nat) : Int)) &&
      isPixelColored d (p + ((w * 4 : Nat) : Int) + t)).toNat

/-- Embeds isPixelSurrounded (ip.js lines 266-307) as a step-indexed
function: fuel bounds the recursion depth, and none means the JavaScript
recursion would not have finished within that depth. In the source,
`response = count >= 2 && isPixelSurrounded(..., threshold - 1)`
short-circuits, so the recursive call is made only when the count is at
least 2, and the response is then the result of the recursive call. -/
def isPixelSurroundedFuel (d : List Nat) (w h : Nat) (p : Int) : Nat → Int → Option Bool
  | 0, _ => none
  | fuel + 1, t =>
    if t = 1 then some (surrounded1 d w h p)
    else if 2 ≤ countR d w h p t then isPixelSurroundedFuel d w h p fuel (t - 1)
    else some false

/-- Four consecutive byte stores data[i] = a, data[i+1] = b, data[i+2] = c,
data[i+3] = e, as performed by the scan callbacks. -/
def write4 (d : List Nat) (i a b c e : Nat) : List Nat :=
  (((d.set i a).set (i + 1) b).set (i + 2) c).set (i + 3) e

/-- One step of the scan callback shared by processRedImage,
processGreenImage and processBlueImage (ip.js lines 169-184, 203-217,
235-249), parameterised by the highlight color: a colored and surrounded
pixel is set to the opaque highlight color, an uncolored pixel is set to
(0,0,0,0), and a colored pixel that is not surrounded is left as it is. -/
def highlightStep (r g b : Nat) (w h : Nat) (d : List Nat) (idx : Nat) : List Nat :=
  if isPixelColored d (idx : Int) then
    if surrounded1 d w h (idx : Int) then write4 d idx r g b 255 else d
  else write4 d idx 0 0 0 0

/-- Jimp scan(0, 0, width, height, f) visits the pixels in row-major order
with idx = 4 * (y * width + x), mutating the buffer in place; we model the
whole scan as a left fold over the pixel numbers 0, ..., width * height - 1. -/
def scanFold (step : List Nat → Nat → List Nat) (w h : Nat) (d : List Nat) : List Nat :=
  (List.range (w * h)).foldl (fun acc i => step acc (4 * i)) d

/-- The scan phase of processRedImage (ip.js lines 169-184). -/
def redScan (w h : Nat) (d : List Nat) : List Nat :=
  scanFold (highlightStep 255 0 0 w h) w h d

/-- The scan phase of processGreenImage (ip.js lines 203-217). -/
def greenScan (w h : Nat) (d : List Nat) : List Nat :=
  scanFold (highlightStep 0 255 0 w h) w h d

/-- The scan phase of processBlueImage (ip.js lines 235-249). -/
def blueScan (w h : Nat) (d : List Nat) : List Nat :=
  scanFold (highlightStep 0 0 255 w h) w h d

/-- The mean of three bytes as computed by processHorrorFilter: the three
reads happen first, and in JavaScript an undefined read makes the whole mean
NaN, which we model as none. The JavaScript value is a float a + b + c over 3;
storing it in the byte buffer truncates, and since the minimum of the five
float candidates is reached at one of them, truncating after the minimum
equals taking the minimum of the truncations, so we use natural division
here. -/
def mean3 (d : List Nat) (i j k : Int) : Option Nat :=
  match readByte d i, readByte d j, readByte d k with
  | some a, some b, some c => some ((a + b + c) / 3)
  | _, _, _ => none

/-- Math.min over the four directional means and 100, followed by the store
into the byte buffer: if any mean is NaN the minimum is NaN and the buffer
store of NaN yields 0. -/
def minOr0 (o1 o2 o3 o4 : Option Nat) : Nat :=
  match o1, o2, o3, o4 with
  | some a, some b, some c, some e => min (min (min (min a b) c) e) 100
  | _, _, _, _ => 0

/-- The three byte values a gated processHorrorFilter pixel receives (ip.js
lines 130-148): for each channel, the minimum of 100 and the four directional
3-sample means, with the exact byte offsets of the source (the south means
reuse two of the north samples). -/
def horrorVals (w : Nat) (d : List Nat) (idx : Nat) : Nat × Nat × Nat :=
  let W4 : Int := ((w * 4 : Nat) : Int)
  let i : Int := (idx : Int)
  let nR := mean3 d (i - W4 - 4) (i - W4) (i - W4 + 4)
  let nG := mean3 d (i - W4 - 3) (i - W4 + 1) (i - W4 + 5)
  let nB := mean3 d (i - W4 - 2) (i - W4 + 2) (i - W4 + 6)
  let eR := mean3 d (i - W4 + 4) (i + 4) (i + W4 + 4)
  let eG := mean3 d (i - W4 + 5) (i + 5) (i + W4 + 5)
  let eB := mean3 d (i - W4 + 6) (i + 6) (i + W4 + 6)
  let sR := mean3 d (i + W4 - 4) (i - W4) (i - W4 + 4)
  let sG := mean3 d (i + W4 - 3) (i - W4 + 1) (i - W4 + 5)
  let sB := mean3 d (i + W4 - 2) (i - W4 + 2) (i - W4 + 6)
  let wR := mean3 d (i - W4 - 4) (i + W4) (i + W4 + 4)
  let wG := mean3 d (i - W4 - 3) (i + W4 + 1) (i + W4 + 5)
  let wB := mean3 d (i - W4 - 2) (i + W4 + 2) (i + W4 + 6)
  (minOr0 nR eR sR wR, minOr0 nG eG sG wG, minOr0 nB eB sB wB)

/-- One step of the processHorrorFilter scan callback (ip.js lines 127-154):
if the pixel is surrounded at radius 1, its R, G, B bytes are replaced by the
three channel values of horrorVals and alpha is set to 255; otherwise nothing
is stored. -/
def horrorStep (w h : Nat) (d : List Nat) (idx : Nat) : List Nat :=
  if surrounded1 d w h (idx : Int) then
    write4 d idx (horrorVals w d idx).1 (horrorVals w d idx).2.1
      (horrorVals w d idx).2.2 255
  else d

/-- The scan phase of processHorrorFilter (ip.js lines 127-154). -/
def horrorScan (w h : Nat) (d : List Nat) : List Nat :=
  scanFold (horrorStep w h) w h d

/-- An in-memory image: width, height and the RGBA byte buffer. The jimp
invariant is that the buffer has length width * height * 4. -/
structure JSImage where
  width : Nat
  height : Nat
  data : List Nat
  deriving Repr, DecidableEq, Inhabited

/-- Byte m of the buffer of an image, with 0 for a missing byte. -/
def byteGet (img : JSImage) (m : Nat) : Nat :=
  img.data.getD m 0

/-- The four bytes of the pixel at coordinates (x, y). -/
def pixelAt (img : JSImage) (x y : Nat) : Nat × Nat × Nat × Nat :=
  (byteGet img (4 * (y * img.width + x)), byteGet img (4 * (y * img.width + x) + 1),
   byteGet img (4 * (y * img.width + x) + 2), byteGet img (4 * (y * img.width + x) + 3))

/-- Modelled from the spec: jimp crop(x, y, w, h) is an external library
call; per the spec it keeps the w by h region whose top left corner is
(x, y), so output pixel (i, j) is input pixel (x + i, y + j). -/
def cropImage (img : JSImage) (x0 y0 cw ch : Nat) : JSImage :=
  ⟨cw, ch,
    (List.range (cw * ch * 4)).map (fun m =>
      byteGet img (4 * ((y0 + m / 4 / cw) * img.width + (x0 + m / 4 % cw)) + m % 4))⟩

/-- processRedImage (ip.js lines 167-192): scan, then
crop(0, 0, width - X_OFFSET, height) with X_OFFSET = 50. -/
def processRedImage (img : JSImage) : JSImage :=
  let scanned : JSImage := ⟨img.width, img.height, redScan img.width img.height img.data⟩
  cropImage scanned 0 0 (scanned.width - 50) scanned.height

/-- processGreenImage (ip.js lines 200-225): scan, then
crop(0, 0, width - X_OFFSET, height). -/
def processGreenImage (img : JSImage) : JSImage :=
  let scanned : JSImage := ⟨img.width, img.height, greenScan img.width img.height img.data⟩
  cropImage scanned 0 0 (scanned.width - 50) scanned.height

/-- processBlueImage (ip.js lines 233-256): scan, then
crop(X_OFFSET, 0, width - X_OFFSET, height): the third jimp argument is the
kept width, so the kept region is [50, width) by [0, height). -/
def processBlueImage (img : JSImage) : JSImage :=
  let scanned : JSImage := ⟨img.width, img.height, blueScan img.width img.height img.data⟩
  cropImage scanned 50 0 (scanned.width - 50) scanned.height

/-- processHorrorFilter (ip.js lines 125-160): the scan with no crop. -/
def processHorrorFilter (img : JSImage) : JSImage :=
  ⟨img.width, img.height, horrorScan img.width img.height img.data⟩

/-- Modelled from the spec: jimp composite is an external library call; the
spec fixes that a fully transparent source pixel leaves the base pixel
unchanged and a fully opaque source pixel overwrites it, and describes the
blend as source-over alpha compositing, which we use for the intermediate
alpha values. -/
def outAlpha (sa ba : Nat) : Nat :=
  sa + ba * (255 - sa) / 255

/-- One blended color channel of the source-over model, for a source pixel
that is neither fully transparent nor fully opaque. -/
def mixByte (c1 c2 sa ba : Nat) : Nat :=
  if outAlpha sa ba = 0 then 0
  else (c1 * sa * 255 + c2 * ba * (255 - sa)) / (outAlpha sa ba * 255)

def blendPixel (s b : Nat × Nat × Nat × Nat) : Nat × Nat × Nat × Nat :=
  if s.2.2.2 = 255 then s
  else if s.2.2.2 = 0 then b
  else (mixByte s.1 b.1 s.2.2.2 b.2.2.2, mixByte s.2.1 b.2.1 s.2.2.2 b.2.2.2,
    mixByte s.2.2.1 b.2.2.1 s.2.2.2 b.2.2.2, outAlpha s.2.2.2 b.2.2.2)

/-- Byte j of a blended pixel. -/
def blendByte (s b : Nat × Nat × Nat × Nat) (j : Nat) : Nat :=
  let o := blendPixel s b
  if j = 0 then o.1 else if j = 1 then o.2.1 else if j = 2 then o.2.2.1 else o.2.2.2

/-- Modelled from the spec: one jimp composite(src, xo, yo) layer pass. The
base keeps its dimensions; each base pixel covered by the source is replaced
by the source-over blend of the source pixel with it, and pixels outside the
source region are unchanged. -/
def compositeLayer (base src : JSImage) (xo yo : Nat) : JSImage :=
  ⟨base.width, base.height,
    (List.range (base.width * base.height * 4)).map (fun m =>
      if xo ≤ m / 4 % base.width ∧ m / 4 % base.width < xo + src.width ∧
          yo ≤ m / 4 / base.width ∧ m / 4 / base.width < yo + src.height then
        blendByte (pixelAt src (m / 4 % base.width - xo) (m / 4 / base.width - yo))
          (pixelAt base (m / 4 % base.width) (m / 4 / base.width)) (m % 4)
      else byteGet base m)⟩

/-- The composite step of loadFolder (ip.js lines 70-72): layer the blue
result onto a clone of the original at (0, 0), then the red result at (0, 0),
then crop(0, 0, width - 50, height). -/
def compositorStep (orig blueRes redRes : JSImage) : JSImage :=
  let layered := compositeLayer (compositeLayer orig blueRes 0 0) redRes 0 0
  cropImage layered 0 0 (layered.width - 50) layered.height

/-- The composite step with the green highlight result also in scope, as it
is in loadFolder (ip.js lines 66, 70-72): the source computes greenImage but
the composite uses only blueImage and redImage, so the green argument is not
used. -/
def compositorStepAll (orig redRes greenRes blueRes : JSImage) : JSImage :=
  compositorStep orig blueRes redRes

/-- The composite output of the per-file pipeline, as a function of the
decoded image: the filters operate on clones, so the red and blue layers are
computed from the decoded pixels. -/
def compositeOutput (img : JSImage) : JSImage :=
  compositorStep img (processBlueImage img) (processRedImage img)

/-- Clamping a sample coordinate to the valid range, for the boundary policy
of the convolution. -/
def clampCoord (v : Int) (n : Nat) : Nat :=
  if v < 0 then 0 else if (n : Int) ≤ v then n - 1 else v.toNat

/-- Clamping a weighted sum to the byte range. -/
def clampByte (v : Int) : Nat :=
  if v < 0 then 0 else if 255 < v then 255 else v.toNat

/-- Modelled from the spec: jimp convolute is an external library call; per
the spec each output R, G, B channel is the kernel-weighted sum over the 3 by
3 neighbourhood, clamped to the byte range, with clamp-to-edge boundary
sampling, and alpha is preserved from the source pixel. The claims below use
it only as the filter body of processEdgeDetect and processSharpen. -/
def convolve (img : JSImage) (kernel : List (List Int)) : JSImage :=
  ⟨img.width, img.height,
    (List.range (img.width * img.height * 4)).map (fun m =>
      let p := m / 4
      let j := m % 4
      let y := p / img.width
      let x := p % img.width
      if j = 3 then byteGet img m
      else
        clampByte (((List.range 3).map (fun ky =>
          ((List.range 3).map (fun kx =>
            ((kernel.getD ky []).getD kx 0) *
              ((byteGet img (4 * ((clampCoord ((y : Int) + (ky : Int) - 1) img.height) * img.width
                  + clampCoord ((x : Int) + (kx : Int) - 1) img.width) + j) : Nat) : Int))).sum)).sum))⟩

/-- The filter body of processEdgeDetect (ip.js lines 89-98). -/
def edgeDetectBody (img : JSImage) : JSImage :=
  convolve img [[1, 1, 1], [1, -8, 1], [1, 1, 1]]

/-- The filter body of processSharpen (ip.js lines 106-115). -/
def sharpenBody (img : JSImage) : JSImage :=
  convolve img [[0, -1, 0], [-1, 5, -1], [0, -1, 0]]

/-- A store of image cells addressed by allocation order: jimp images are
mutable heap objects, and img.clone() allocates a fresh cell holding a deep
copy of the image, so later writes through one cell never reach another. -/
def cloneAt (s : List JSImage) (r : Nat) : List JSImage × Nat :=
  (s ++ [s.getD r default], s.length)

/-- The shape shared by the six filter functions (ip.js lines 89-256): clone
the argument image, mutate only the clone with the filter body, and return
the reference to the clone. The source cell r is read but never written. -/
def applyFilter (body : JSImage → JSImage) (s : List JSImage) (r : Nat) :
    List JSImage × Nat :=
  let c := cloneAt s r
  ((c.1).set c.2 (body ((c.1).getD c.2 default)), c.2)

/-- The per-file body of loadFolder (ip.js lines 57-74) over the image store:
cell 0 holds the decoded image, cell 1 the originalImage clone, cells 2 to 7
the six filter clones in source order, and the composite step finally mutates
cell 1 using the blue and red results. -/
def runPipelineStore (img : JSImage) : List JSImage :=
  let s0 : List JSImage := [img]
  let c := cloneAt s0 0
  let f1 := applyFilter edgeDetectBody c.1 0
  let f2 := applyFilter sharpenBody f1.1 0
  let f3 := applyFilter processHorrorFilter f2.1 0
  let f4 := applyFilter processRedImage f3.1 0
  let f5 := applyFilter processGreenImage f4.1 0
  let f6 := applyFilter processBlueImage f5.1 0
  let s := f6.1
  s.set 1 (compositorStep (s.getD 1 default) (s.getD f6.2 default) (s.getD f4.2 default))

/-- errorHandle (ip.js lines 323-330): a first line is always printed, then
one of two case lines depending on whether a folder argument was present. -/
def errorHandle (args : List String) : List String :=
  "Error loading from folder." ::
    (if 3 ≤ args.length then ["Folder not found or could not be read."]
     else ["No folder name found; check arguments."])

/-- The startup check (ip.js lines 39-43): process.argv holds the node binary
and the script path as its first two entries, so a folder argument means
length at least 3; existsFn stands for the external FS.existsSync, which is
only consulted when the argument is present, as && short-circuits. The
Boolean records whether loadFolder (the image processing) runs, and the list
holds the lines printed when it does not run. -/
def mainEntry (argv : List String) (existsFn : String → Bool) : List String × Bool :=
  if decide (3 ≤ argv.length) && existsFn (argv.getD 2 "") then ([], true)
  else (errorHandle argv, false)

/-- The four axis-neighbour offsets east, west, north, south of a pixel
offset, in the order the source checks them. -/
def neighborOffsets (w : Nat) (p : Int) : List Int :=
  [p + 4, p - 4, p - ((w * 4 : Nat) : Int), p + ((w * 4 : Nat) : Int)]

/-- The C2 claim in its own words: a neighbour contributes when its computed
offset lies in [0, width * height * 4) and it is colored, and surrounded
means at least 2 contributing neighbours. This definition follows the claim
text and is compared against surrounded1, which follows the source. -/
def surroundedSpecC2 (d : List Nat) (w h : Nat) (p : Int) : Bool :=
  decide (2 ≤ ((neighborOffsets w p).map (fun o =>
    (decide (0 ≤ o ∧ o < ((w * h * 4 : Nat) : Int)) && isPixelColored d o).toNat)).sum)

/-- The amended C2 statement: a neighbour contributes only when its computed
offset is strictly positive and below width * height * 4, since the west and
north guards of the source use the strict comparison offset > 0 and so skip a
neighbour sitting at offset 0. -/
def surroundedAmended (d : List Nat) (w h : Nat) (p : Int) : Bool :=
  decide (2 ≤ ((neighborOffsets w p).map (fun o =>
    (decide (0 < o ∧ o < ((w * h * 4 : Nat) : Int)) && isPixelColored d o).toNat)).sum)

/-! Basic facts about byte reads and the four-byte stores. -/

theorem write4_length (d : List Nat) (i a b c e : Nat) :
    (write4 d i a b c e).length = d.length := by
  simp [write4]

theorem getElem?_write4_outside (d : List Nat) (i a b c e m : Nat)
    (hm : m < i ∨ i + 3 < m) : (write4 d i a b c e)[m]? = d[m]? := by
  unfold write4
  rw [List.getElem?_set_ne (by omega), List.getElem?_set_ne (by omega),
    List.getElem?_set_ne (by omega), List.getElem?_set_ne (by omega)]

theorem getElem?_write4_0 (d : List Nat) (i a b c e : Nat) (h : i < d.length) :
    (write4 d i a b c e)[i]? = some a := by
  unfold write4
  rw [List.getElem?_set_ne (by omega), List.getElem?_set_ne (by omega),
    List.getElem?_set_ne (by omega), List.getElem?_set_eq_of_lt a h]

theorem getElem?_write4_1 (d : List Nat) (i a b c e : Nat) (h : i + 1 < d.length) :
    (write4 d i a b c e)[i + 1]? = some b := by
  unfold write4
  rw [List.getElem?_set_ne (by omega), List.getElem?_set_ne (by omega),
    List.getElem?_set_eq_of_lt b (by simpa using h)]

theorem getElem?_write4_2 (d : List Nat) (i a b c e : Nat) (h : i + 2 < d.length) :
    (write4 d i a b c e)[i + 2]? = some c := by
  unfold write4
  rw [List.getElem?_set_ne (by omega),
    List.getElem?_set_eq_of_lt c (by simpa using h)]

theorem getElem?_write4_3 (d : List Nat) (i a b c e : Nat) (h : i + 3 < d.length) :
    (write4 d i a b c e)[i + 3]? = some e := by
  unfold write4
  rw [List.getElem?_set_eq_of_lt e (by simpa [write4] using h)]

/-- A scan step writes only the four bytes of its own pixel. -/
def WritesOwn (step : List Nat → Nat → List Nat) : Prop :=
  ∀ d i m, (m < i ∨ i + 3 < m) → (step d i)[m]? = d[m]?

/-- A scan step preserves the buffer length. -/
def KeepsLength (step : List Nat → Nat → List Nat) : Prop :=
  ∀ d i, (step d i).length = d.length

theorem highlightStep_writesOwn (r g b w h : Nat) :
    WritesOwn (highlightStep r g b w h) := by
  intro d i m hm
  unfold highlightStep
  split
  · split
    · exact getElem?_write4_outside d i r g b 255 m hm
    · rfl
  · exact getElem?_write4_outside d i 0 0 0 0 m hm

theorem highlightStep_keepsLength (r g b w h : Nat) :
    KeepsLength (highlightStep r g b w h) := by
  intro d i
  unfold highlightStep
  split
  · split
    · exact write4_length _ _ _ _ _ _
    · rfl
  · exact write4_length _ _ _ _ _ _

theorem horrorStep_writesOwn (w h : Nat) : WritesOwn (horrorStep w h) := by
  intro d i m hm
  unfold horrorStep
  split
  · exact getElem?_write4_outside _ _ _ _ _ _ _ hm
  · rfl

theorem horrorStep_keepsLength (w h : Nat) : KeepsLength (horrorStep w h) := by
  intro d i
  unfold horrorStep
  split
  · exact write4_length _ _ _ _ _ _
  · rfl

/-- A fold of scan steps leaves every byte outside the visited pixels
untouched. -/
theorem foldl_getElem?_outside (step : List Nat → Nat → List Nat)
    (hW : WritesOwn step) (L : List Nat) (m : Nat) :
    ∀ d : List Nat, (∀ i ∈ L, m < 4 * i ∨ 4 * i + 3 < m) →
      (L.foldl (fun acc i => step acc (4 * i)) d)[m]? = d[m]? := by
  induction L with
  | nil => intro d _; rfl
  | cons a L ih =>
    intro d hL
    have h1 : (L.foldl (fun acc i => step acc (4 * i)) (step d (4 * a)))[m]?
        = (step d (4 * a))[m]? :=
      ih (step d (4 * a)) (fun i hi => hL i (List.mem_cons_of_mem a hi))
    have h2 : (step d (4 * a))[m]? = d[m]? :=
      hW d (4 * a) m (hL a (List.mem_cons_self a L))
    simpa [List.foldl_cons, h1] using h2

/-- A fold of length-preserving scan steps preserves the buffer length. -/
theorem foldl_length (step : List Nat → Nat → List Nat)
    (hK : KeepsLength step) (L : List Nat) :
    ∀ d : List Nat, (L.foldl (fun acc i => step acc (4 * i)) d).length = d.length := by
  induction L with
  | nil => intro d; rfl
  | cons a L ih =>
    intro d
    simpa [List.foldl_cons, ih (step d (4 * a))] using hK d (4 * a)

theorem readByte_congr (d2 d : List Nat) (c : Int)
    (h : ∀ m : Nat, (m : Int) = c → d2[m]? = d[m]?) :
    readByte d2 c = readByte d c := by
  unfold readByte
  split
  · rfl
  · exact h c.toNat (by omega)

theorem isPixelColored_congr (d2 d : List Nat) (p : Int)
    (h : ∀ c : Int, (c = p ∨ c = p + 1 ∨ c = p + 2) → readByte d2 c = readByte d c) :
    isPixelColored d2 p = isPixelColored d p := by
  unfold isPixelColored
  rw [h p (Or.inl rfl), h (p + 1) (Or.inr (Or.inl rfl)), h (p + 2) (Or.inr (Or.inr rfl))]

/-! Coloredness of pixels under the in-place scan writes. -/

theorem readByte_of_nonneg (d : List Nat) (c : Int) (h : 0 ≤ c) :
    readByte d c = d[c.toNat]? := by
  unfold readByte
  rw [if_neg (by omega)]

theorem isPixelColored_of_neg (d : List Nat) (p : Int) (hp : p + 2 < 0) :
    isPixelColored d p = false := by
  have e : ∀ c : Int, c ≤ p + 2 → readByte d c = none := by
    intro c hc
    unfold readByte
    rw [if_pos (by omega)]
  unfold isPixelColored
  rw [e p (by omega), e (p + 1) (by omega), e (p + 2) (by omega)]
  rfl

theorem isPixelColored_of_ge (d : List Nat) (p : Int)
    (hp : (d.length : Int) ≤ p) : isPixelColored d p = false := by
  have e : ∀ c : Int, p ≤ c → readByte d c = none := by
    intro c hc
    rw [readByte_of_nonneg d c (by omega)]
    exact List.getElem?_eq_none (by omega)
  unfold isPixelColored
  rw [e p (by omega), e (p + 1) (by omega), e (p + 2) (by omega)]
  rfl

theorem isPixelColored_write4_self (d : List Nat) (i a b c e : Nat)
    (h : i + 3 < d.length) :
    isPixelColored (write4 d i a b c e) ((i : Nat) : Int)
      = (decide (100 < a) || decide (100 < b) || decide (100 < c)) := by
  unfold isPixelColored
  rw [readByte_of_nonneg _ _ (by omega), readByte_of_nonneg _ _ (by omega),
    readByte_of_nonneg _ _ (by omega)]
  have e0 : ((i : Nat) : Int).toNat = i := by omega
  have e1 : (((i : Nat) : Int) + 1).toNat = i + 1 := by omega
  have e2 : (((i : Nat) : Int) + 2).toNat = i + 2 := by omega
  rw [e0, e1, e2, getElem?_write4_0 d i a b c e (by omega),
    getElem?_write4_1 d i a b c e (by omega), getElem?_write4_2 d i a b c e (by omega)]
  rfl

/-- The three possible outcomes of one highlighter scan step. -/
theorem highlightStep_cases (r g b w h : Nat) (d : List Nat) (idx : Nat) :
    (isPixelColored d (idx : Int) = true ∧ surrounded1 d w h (idx : Int) = true ∧
      highlightStep r g b w h d idx = write4 d idx r g b 255)
    ∨ (isPixelColored d (idx : Int) = true ∧ surrounded1 d w h (idx : Int) = false ∧
      highlightStep r g b w h d idx = d)
    ∨ (isPixelColored d (idx : Int) = false ∧
      highlightStep r g b w h d idx = write4 d idx 0 0 0 0) := by
  by_cases hc : isPixelColored d (idx : Int) = true
  · by_cases hs : surrounded1 d w h (idx : Int) = true
    · exact Or.inl ⟨hc, hs, by unfold highlightStep; rw [if_pos hc, if_pos hs]⟩
    · refine Or.inr (Or.inl ⟨hc, by simpa using hs, ?_⟩)
      unfold highlightStep
      rw [if_pos hc, if_neg hs]
  · refine Or.inr (Or.inr ⟨by simpa using hc, ?_⟩)
    unfold highlightStep
    rw [if_neg hc]

theorem minOr0_le_100 (o1 o2 o3 o4 : Option Nat) : minOr0 o1 o2 o3 o4 ≤ 100 := by
  unfold minOr0
  cases o1 <;> cases o2 <;> cases o3 <;> cases o4 <;> simp

theorem horrorVals_le_100 (w : Nat) (d : List Nat) (idx : Nat) :
    (horrorVals w d idx).1 ≤ 100 ∧ (horrorVals w d idx).2.1 ≤ 100 ∧
      (horrorVals w d idx).2.2 ≤ 100 :=
  ⟨minOr0_le_100 _ _ _ _, minOr0_le_100 _ _ _ _, minOr0_le_100 _ _ _ _⟩

/-- The two possible outcomes of one horror scan step: a gated pixel gets
stores of at most 100 into R, G, B and 255 into alpha, otherwise nothing. -/
theorem horrorStep_cases (w h : Nat) (d : List Nat) (idx : Nat) :
    (surrounded1 d w h (idx : Int) = false ∧ horrorStep w h d idx = d)
    ∨ (∃ v1 v2 v3, v1 ≤ 100 ∧ v2 ≤ 100 ∧ v3 ≤ 100 ∧
        surrounded1 d w h (idx : Int) = true ∧
        horrorStep w h d idx = write4 d idx v1 v2 v3 255) := by
  by_cases hs : surrounded1 d w h (idx : Int) = true
  · exact Or.inr ⟨(horrorVals w d idx).1, (horrorVals w d idx).2.1,
      (horrorVals w d idx).2.2, (horrorVals_le_100 w d idx).1,
      (horrorVals_le_100 w d idx).2.1, (horrorVals_le_100 w d idx).2.2, hs,
      by unfold horrorStep; rw [if_pos hs]⟩
  · refine Or.inl ⟨by simpa using hs, ?_⟩
    unfold horrorStep
    rw [if_neg hs]

theorem isPixelColored_step_outside (step : List Nat → Nat → List Nat)
    (hW : WritesOwn step) (d : List Nat) (i : Nat) (k : Int)
    (hk : k ≠ (i : Int)) :
    isPixelColored (step d (4 * i)) (4 * k) = isPixelColored d (4 * k) := by
  apply isPixelColored_congr
  intro c hc
  apply readByte_congr
  intro m hm
  apply hW d (4 * i) m
  rcases hc with hh | hh | hh <;> omega

theorem highlightStep_coloredEq (r g b w h : Nat)
    (hcol : 100 < r ∨ 100 < g ∨ 100 < b) (d : List Nat) (i : Nat)
    (hi : 4 * i + 3 < d.length) (k : Int) :
    isPixelColored (highlightStep r g b w h d (4 * i)) (4 * k)
      = isPixelColored d (4 * k) := by
  by_cases hk : k = (i : Int)
  · subst hk
    have hcast : (4 : Int) * (i : Int) = ((4 * i : Nat) : Int) := by push_cast; ring
    rw [hcast]
    rcases highlightStep_cases r g b w h d (4 * i) with
      ⟨hc, _, heq⟩ | ⟨_, _, heq⟩ | ⟨hc, heq⟩
    · rw [heq, isPixelColored_write4_self d (4 * i) r g b 255 hi, hc]
      rcases hcol with hh | hh | hh <;> simp [hh]
    · rw [heq]
    · rw [heq, isPixelColored_write4_self d (4 * i) 0 0 0 0 hi, hc]
      rfl
  · exact isPixelColored_step_outside _ (highlightStep_writesOwn r g b w h) d i k hk

theorem horrorStep_coloredLe (w h : Nat) (d : List Nat) (i : Nat)
    (hi : 4 * i + 3 < d.length) (k : Int)
    (hk : isPixelColored (horrorStep w h d (4 * i)) (4 * k) = true) :
    isPixelColored d (4 * k) = true := by
  by_cases hki : k = (i : Int)
  · subst hki
    rcases horrorStep_cases w h d (4 * i) with
      ⟨_, heq⟩ | ⟨v1, v2, v3, hv1, hv2, hv3, _, heq⟩
    · rwa [heq] at hk
    · have hcast : (4 : Int) * (i : Int) = ((4 * i : Nat) : Int) := by push_cast; ring
      rw [hcast, heq, isPixelColored_write4_self d (4 * i) v1 v2 v3 255 hi] at hk
      simp only [Bool.or_eq_true, decide_eq_true_eq] at hk
      rcases hk with (hh | hh) | hh <;> exact absurd hh (by omega)
  · rwa [isPixelColored_step_outside _ (horrorStep_writesOwn w h) d i k hki] at hk

/-! The surroundedness test under pointwise coloredness relations. -/

theorem surrounded1_congr (d2 d : List Nat) (w h : Nat) (p : Int)
    (h1 : isPixelColored d2 (p + 4) = isPixelColored d (p + 4))
    (h2 : isPixelColored d2 (p - 4) = isPixelColored d (p - 4))
    (h3 : isPixelColored d2 (p - ((w * 4 : Nat) : Int))
      = isPixelColored d (p - ((w * 4 : Nat) : Int)))
    (h4 : isPixelColored d2 (p + ((w * 4 : Nat) : Int))
      = isPixelColored d (p + ((w * 4 : Nat) : Int))) :
    surrounded1 d2 w h p = surrounded1 d w h p := by
  unfold surrounded1 count1
  rw [h1, h2, h3, h4]

theorem band_toNat_mono (g c2 c : Bool) (hc : c2 = true → c = true) :
    (g && c2).toNat ≤ (g && c).toNat := by
  cases g <;> cases c2 <;> simp_all

theorem surrounded1_mono (d2 d : List Nat) (w h : Nat) (p : Int)
    (h1 : isPixelColored d2 (p + 4) = true → isPixelColored d (p + 4) = true)
    (h2 : isPixelColored d2 (p - 4) = true → isPixelColored d (p - 4) = true)
    (h3 : isPixelColored d2 (p - ((w * 4 : Nat) : Int)) = true →
      isPixelColored d (p - ((w * 4 : Nat) : Int)) = true)
    (h4 : isPixelColored d2 (p + ((w * 4 : Nat) : Int)) = true →
      isPixelColored d (p + ((w * 4 : Nat) : Int)) = true)
    (hs : surrounded1 d2 w h p = true) : surrounded1 d w h p = true := by
  unfold surrounded1 count1 at hs ⊢
  have e1 := band_toNat_mono (decide (p + 4 < ((w * h * 4 : Nat) : Int))) _ _ h1
  have e2 := band_toNat_mono (decide (0 < p - 4)) _ _ h2
  have e3 := band_toNat_mono (decide (0 < p - ((w * 4 : Nat) : Int))) _ _ h3
  have e4 := band_toNat_mono
    (decide (p + ((w * 4 : Nat) : Int) < ((w * h * 4 : Nat) : Int))) _ _ h4
  simp only [decide_eq_true_eq] at hs ⊢
  omega

theorem foldl_highlight_coloredEq (r g b w h : Nat)
    (hcol : 100 < r ∨ 100 < g ∨ 100 < b) (L : List Nat) :
    ∀ d : List Nat, (∀ i ∈ L, 4 * i + 3 < d.length) → ∀ k : Int,
      isPixelColored (L.foldl (fun acc i => highlightStep r g b w h acc (4 * i)) d) (4 * k)
        = isPixelColored d (4 * k) := by
  induction L with
  | nil => intro d _ k; rfl
  | cons a L ih =>
    intro d hL k
    rw [List.foldl_cons]
    have hlen : (highlightStep r g b w h d (4 * a)).length = d.length :=
      highlightStep_keepsLength r g b w h d (4 * a)
    rw [ih (highlightStep r g b w h d (4 * a))
      (fun i hi => by rw [hlen]; exact hL i (List.mem_cons_of_mem a hi)) k]
    exact highlightStep_coloredEq r g b w h hcol d a (hL a (List.mem_cons_self a L)) k

theorem foldl_horror_coloredLe (w h : Nat) (L : List Nat) :
    ∀ d : List Nat, (∀ i ∈ L, 4 * i + 3 < d.length) → ∀ k : Int,
      isPixelColored (L.foldl (fun acc i => horrorStep w h acc (4 * i)) d) (4 * k) = true →
        isPixelColored d (4 * k) = true := by
  induction L with
  | nil => intro d _ k hk; exact hk
  | cons a L ih =>
    intro d hL k hk
    rw [List.foldl_cons] at hk
    have hlen := horrorStep_keepsLength w h d (4 * a)
    have h1 := ih (horrorStep w h d (4 * a))
      (fun i hi => by rw [hlen]; exact hL i (List.mem_cons_of_mem a hi)) k hk
    exact horrorStep_coloredLe w h d a (hL a (List.mem_cons_self a L)) k h1

theorem highlight_scan_unchanged (r g b w h : Nat)
    (hcol : 100 < r ∨ 100 < g ∨ 100 < b) (d : List Nat) (p : Nat)
    (hlen : d.length = w * h * 4) (hp : p < w * h)
    (hc : isPixelColored d ((4 * p : Nat) : Int) = true)
    (hs : surrounded1 d w h ((4 * p : Nat) : Int) = false)
    (j : Nat) (hj : j < 4) :
    (scanFold (highlightStep r g b w h) w h d)[4 * p + j]? = d[4 * p + j]? := by
  unfold scanFold
  rw [List.range_eq_range']
  have hsplit : List.range' 0 (w * h) = List.range' 0 p ++ List.range' p (w * h - p) := by
    have e := List.range'_append 0 p (w * h - p) 1
    rw [show 0 + 1 * p = p by omega] at e
    rw [show w * h - p + p = w * h by omega] at e
    exact e.symm
  rw [hsplit, List.foldl_append]
  set d1 := (List.range' 0 p).foldl
    (fun acc i => highlightStep r g b w h acc (4 * i)) d with hd1def
  have hd1len : d1.length = d.length := by
    rw [hd1def]
    exact foldl_length _ (highlightStep_keepsLength r g b w h) _ d
  have hbound : ∀ i ∈ List.range' 0 p, 4 * i + 3 < d.length := by
    intro i hi
    have := List.mem_range'_1.mp hi
    omega
  have hinv : ∀ k : Int, isPixelColored d1 (4 * k) = isPixelColored d (4 * k) := by
    intro k
    rw [hd1def]
    exact foldl_highlight_coloredEq r g b w h hcol _ d hbound k
  have hcast0 : ((4 * p : Nat) : Int) = 4 * (p : Int) := by push_cast; ring
  have hc1 : isPixelColored d1 ((4 * p : Nat) : Int) = true := by
    rw [hcast0, hinv (p : Int), ← hcast0]
    exact hc
  have hs1 : surrounded1 d1 w h ((4 * p : Nat) : Int) = false := by
    have c1 : ((4 * p : Nat) : Int) + 4 = 4 * ((p : Int) + 1) := by push_cast; ring
    have c2 : ((4 * p : Nat) : Int) - 4 = 4 * ((p : Int) - 1) := by push_cast; ring
    have c3 : ((4 * p : Nat) : Int) - ((w * 4 : Nat) : Int)
        = 4 * ((p : Int) - (w : Int)) := by push_cast; ring
    have c4 : ((4 * p : Nat) : Int) + ((w * 4 : Nat) : Int)
        = 4 * ((p : Int) + (w : Int)) := by push_cast; ring
    have e := surrounded1_congr d1 d w h ((4 * p : Nat) : Int)
      (by rw [c1]; exact hinv ((p : Int) + 1))
      (by rw [c2]; exact hinv ((p : Int) - 1))
      (by rw [c3]; exact hinv ((p : Int) - (w : Int)))
      (by rw [c4]; exact hinv ((p : Int) + (w : Int)))
    rw [e]
    exact hs
  have hback : List.range' p (w * h - p) = p :: List.range' (p + 1) (w * h - p - 1) := by
    have e := List.range'_succ p (w * h - p - 1) 1
    rw [show w * h - p - 1 + 1 = w * h - p by omega] at e
    exact e
  rw [hback]
  simp only [List.foldl_cons]
  have hstep : highlightStep r g b w h d1 (4 * p) = d1 := by
    unfold highlightStep
    rw [if_pos hc1, if_neg (by rw [hs1]; simp)]
  rw [hstep]
  rw [foldl_getElem?_outside _ (highlightStep_writesOwn r g b w h)
    (List.range' (p + 1) (w * h - p - 1)) (4 * p + j) d1
    (fun i hi => by have := List.mem_range'_1.mp hi; omega)]
  rw [hd1def]
  exact foldl_getElem?_outside _ (highlightStep_writesOwn r g b w h)
    (List.range' 0 p) (4 * p + j) d
    (fun i hi => by have := List.mem_range'_1.mp hi; omega)

theorem horror_scan_frame (w h : Nat) (d : List Nat) (p : Nat)
    (hlen : d.length = w * h * 4) (hp : p < w * h) :
    (surrounded1 d w h ((4 * p : Nat) : Int) = false →
      ∀ j, j < 4 → (horrorScan w h d)[4 * p + j]? = d[4 * p + j]?)
    ∧ ((∃ j, j < 4 ∧ (horrorScan w h d)[4 * p + j]? ≠ d[4 * p + j]?) →
      surrounded1 d w h ((4 * p : Nat) : Int) = true ∧
        (horrorScan w h d)[4 * p + 3]? = some 255) := by
  unfold horrorScan scanFold
  rw [List.range_eq_range']
  have hsplit : List.range' 0 (w * h) = List.range' 0 p ++ List.range' p (w * h - p) := by
    have e := List.range'_append 0 p (w * h - p) 1
    rw [show 0 + 1 * p = p by omega] at e
    rw [show w * h - p + p = w * h by omega] at e
    exact e.symm
  rw [hsplit, List.foldl_append]
  set d1 := (List.range' 0 p).foldl (fun acc i => horrorStep w h acc (4 * i)) d
    with hd1def
  have hd1len : d1.length = d.length := by
    rw [hd1def]
    exact foldl_length _ (horrorStep_keepsLength w h) _ d
  have hbound : ∀ i ∈ List.range' 0 p, 4 * i + 3 < d.length := by
    intro i hi
    have := List.mem_range'_1.mp hi
    omega
  have hmono : surrounded1 d1 w h ((4 * p : Nat) : Int) = true →
      surrounded1 d w h ((4 * p : Nat) : Int) = true := by
    intro hst
    have c1 : ((4 * p : Nat) : Int) + 4 = 4 * ((p : Int) + 1) := by push_cast; ring
    have c2 : ((4 * p : Nat) : Int) - 4 = 4 * ((p : Int) - 1) := by push_cast; ring
    have c3 : ((4 * p : Nat) : Int) - ((w * 4 : Nat) : Int)
        = 4 * ((p : Int) - (w : Int)) := by push_cast; ring
    have c4 : ((4 * p : Nat) : Int) + ((w * 4 : Nat) : Int)
        = 4 * ((p : Int) + (w : Int)) := by push_cast; ring
    refine surrounded1_mono d1 d w h _ ?_ ?_ ?_ ?_ hst
    · intro hcl
      rw [c1] at hcl ⊢
      rw [hd1def] at hcl
      exact foldl_horror_coloredLe w h _ d hbound ((p : Int) + 1) hcl
    · intro hcl
      rw [c2] at hcl ⊢
      rw [hd1def] at hcl
      exact foldl_horror_coloredLe w h _ d hbound ((p : Int) - 1) hcl
    · intro hcl
      rw [c3] at hcl ⊢
      rw [hd1def] at hcl
      exact foldl_horror_coloredLe w h _ d hbound ((p : Int) - (w : Int)) hcl
    · intro hcl
      rw [c4] at hcl ⊢
      rw [hd1def] at hcl
      exact foldl_horror_coloredLe w h _ d hbound ((p : Int) + (w : Int)) hcl
  have hback : List.range' p (w * h - p) = p :: List.range' (p + 1) (w * h - p - 1) := by
    have e := List.range'_succ p (w * h - p - 1) 1
    rw [show w * h - p - 1 + 1 = w * h - p by omega] at e
    exact e
  rw [hback]
  simp only [List.foldl_cons]
  by_cases hs1 : surrounded1 d1 w h ((4 * p : Nat) : Int) = true
  · have hstep : horrorStep w h d1 (4 * p)
        = write4 d1 (4 * p) (horrorVals w d1 (4 * p)).1 (horrorVals w d1 (4 * p)).2.1
          (horrorVals w d1 (4 * p)).2.2 255 := by
      unfold horrorStep
      rw [if_pos hs1]
    rw [hstep]
    have halpha : ((List.range' (p + 1) (w * h - p - 1)).foldl
        (fun acc i => horrorStep w h acc (4 * i))
        (write4 d1 (4 * p) (horrorVals w d1 (4 * p)).1 (horrorVals w d1 (4 * p)).2.1
          (horrorVals w d1 (4 * p)).2.2 255))[4 * p + 3]? = some 255 := by
      rw [foldl_getElem?_outside _ (horrorStep_writesOwn w h) _ (4 * p + 3) _
        (fun i hi => by have := List.mem_range'_1.mp hi; omega)]
      exact getElem?_write4_3 d1 (4 * p) _ _ _ 255 (by omega)
    constructor
    · intro hs _ _
      exact absurd (hmono hs1) (by rw [hs]; simp)
    · intro _
      exact ⟨hmono hs1, halpha⟩
  · have hs1f : surrounded1 d1 w h ((4 * p : Nat) : Int) = false := by
      simpa using hs1
    have hstep : horrorStep w h d1 (4 * p) = d1 := by
      unfold horrorStep
      rw [if_neg (by rw [hs1f]; simp)]
    rw [hstep]
    have hunch : ∀ j, j < 4 → ((List.range' (p + 1) (w * h - p - 1)).foldl
        (fun acc i => horrorStep w h acc (4 * i)) d1)[4 * p + j]? = d[4 * p + j]? := by
      intro j hj
      rw [foldl_getElem?_outside _ (horrorStep_writesOwn w h) _ (4 * p + j) d1
        (fun i hi => by have := List.mem_range'_1.mp hi; omega)]
      rw [hd1def]
      exact foldl_getElem?_outside _ (horrorStep_writesOwn w h) _ (4 * p + j) d
        (fun i hi => by have := List.mem_range'_1.mp hi; omega)
    exact ⟨fun _ j hj => hunch j hj,
      fun he => absurd (hunch he.choose he.choose_spec.1) he.choose_spec.2⟩

/-- A 52 by 1 test image whose only colored pixel sits at x = 1, with all of
its in-image axis neighbours uncolored. -/
def d52 : List Nat := [0, 0, 0, 255, 200, 0, 0, 255] ++ List.replicate 200 0

def img52 : JSImage := ⟨52, 1, d52⟩

set_option maxRecDepth 100000 in
/-- Claim C1 counterexample: in img52 the pixel at x = 1 is colored and not
surrounded, yet processRedImage leaves it at its original value
(200, 0, 0, 255) instead of setting it to transparent black (0, 0, 0, 0):
the source only blanks uncolored pixels, and colored pixels that are not
surrounded fall through both branches unchanged. -/
theorem highlighter_transparent_cex :
    isPixelColored d52 ((4 : Nat) : Int) = true ∧
    surrounded1 d52 52 1 ((4 : Nat) : Int) = false ∧
    pixelAt (processRedImage img52) 1 0 = (200, 0, 0, 255) ∧
    pixelAt (processRedImage img52) 1 0 ≠ (0, 0, 0, 0) := by
  decide

/-- Claim C1 (amended): for every image and pixel that is colored but not
surrounded at radius 1 (on the image as decoded), each of the three channel
highlighter scans leaves all four bytes of that pixel unchanged — it is not
set to transparent black; only uncolored pixels are blanked. -/
theorem highlighter_not_surrounded_unchanged (img : JSImage) (p : Nat)
    (hlen : img.data.length = img.width * img.height * 4)
    (hp : p < img.width * img.height)
    (hc : isPixelColored img.data ((4 * p : Nat) : Int) = true)
    (hs : surrounded1 img.data img.width img.height ((4 * p : Nat) : Int) = false)
    (j : Nat) (hj : j < 4) :
    (redScan img.width img.height img.data)[4 * p + j]? = img.data[4 * p + j]? ∧
    (greenScan img.width img.height img.data)[4 * p + j]? = img.data[4 * p + j]? ∧
    (blueScan img.width img.height img.data)[4 * p + j]? = img.data[4 * p + j]? :=
  ⟨highlight_scan_unchanged 255 0 0 img.width img.height (Or.inl (by omega))
      img.data p hlen hp hc hs j hj,
   highlight_scan_unchanged 0 255 0 img.width img.height (Or.inr (Or.inl (by omega)))
      img.data p hlen hp hc hs j hj,
   highlight_scan_unchanged 0 0 255 img.width img.height (Or.inr (Or.inr (by omega)))
      img.data p hlen hp hc hs j hj⟩

/-- Witness for the amended C1 theorem at a concrete 1 by 1 image. -/
theorem highlighter_not_surrounded_unchanged_witness :
    (([200, 0, 0, 255] : List Nat).length = 1 * 1 * 4 ∧ (0 : Nat) < 1 * 1) ∧
    ((redScan 1 1 [200, 0, 0, 255])[0]? = ([200, 0, 0, 255] : List Nat)[0]? ∧
     (greenScan 1 1 [200, 0, 0, 255])[0]? = ([200, 0, 0, 255] : List Nat)[0]? ∧
     (blueScan 1 1 [200, 0, 0, 255])[0]? = ([200, 0, 0, 255] : List Nat)[0]?) :=
  ⟨⟨by decide, by decide⟩,
   highlighter_not_surrounded_unchanged ⟨1, 1, [200, 0, 0, 255]⟩ 0 (by decide)
     (by decide) (by decide) (by decide) 0 (by decide)⟩

/-- A 2 by 2 test image whose pixels at offsets 0 and 8 are colored. -/
def d2x : List Nat := [200, 0, 0, 255, 10, 10, 10, 255, 200, 0, 0, 255, 10, 10, 10, 255]

/-- Claim C2 counterexample: for the pixel at offset 4 of d2x, two of its
in-bounds axis neighbours are colored (offsets 0 and 8, both inside
[0, 16)), so the claimed reading of isPixelSurrounded returns true, but the
source guard pixel - 4 > 0 skips the west neighbour at offset 0 and
isPixelSurrounded returns false. -/
theorem surrounded_offset0_cex :
    surrounded1 d2x 2 2 4 = false ∧ surroundedSpecC2 d2x 2 2 4 = true := by
  decide

/-- Claim C2 (amended): for a pixel offset inside [0, width*height*4),
isPixelSurrounded at radius 1 is true exactly when at least 2 of the 4 axis
neighbours contribute, where a neighbour contributes only when its computed
offset is strictly greater than 0 and below width * height * 4 and it is
colored: the strict west and north guards exclude a neighbour at offset 0. -/
theorem surrounded1_iff_amended (d : List Nat) (w h : Nat) (p : Nat)
    (hp : p < w * h * 4) :
    surrounded1 d w h ((p : Nat) : Int) = surroundedAmended d w h ((p : Nat) : Int) := by
  have hw : 0 < w := by
    rcases Nat.eq_zero_or_pos w with h0 | h0
    · subst h0
      simp at hp
    · exact h0
  have hL : ((p : Nat) : Int) < ((w * h * 4 : Nat) : Int) := by exact_mod_cast hp
  have hW4 : (4 : Int) ≤ ((w * 4 : Nat) : Int) := by
    exact_mod_cast (by omega : 4 ≤ w * 4)
  have hp0 : (0 : Int) ≤ ((p : Nat) : Int) := by positivity
  unfold surrounded1 surroundedAmended count1 neighborOffsets
  simp only [List.map_cons, List.map_nil, List.sum_cons, List.sum_nil]
  have e1 : decide (((p : Nat) : Int) + 4 < ((w * h * 4 : Nat) : Int))
      = decide (0 < ((p : Nat) : Int) + 4 ∧ ((p : Nat) : Int) + 4 < ((w * h * 4 : Nat) : Int)) :=
    decide_eq_decide.mpr (Iff.intro (fun hh => ⟨by omega, hh⟩) (fun hh => hh.2))
  have e2 : decide (0 < ((p : Nat) : Int) - 4)
      = decide (0 < ((p : Nat) : Int) - 4 ∧ ((p : Nat) : Int) - 4 < ((w * h * 4 : Nat) : Int)) :=
    decide_eq_decide.mpr (Iff.intro (fun hh => ⟨hh, by omega⟩) (fun hh => hh.1))
  have e3 : decide (0 < ((p : Nat) : Int) - ((w * 4 : Nat) : Int))
      = decide (0 < ((p : Nat) : Int) - ((w * 4 : Nat) : Int) ∧
          ((p : Nat) : Int) - ((w * 4 : Nat) : Int) < ((w * h * 4 : Nat) : Int)) :=
    decide_eq_decide.mpr (Iff.intro (fun hh => ⟨hh, by omega⟩) (fun hh => hh.1))
  have e4 : decide (((p : Nat) : Int) + ((w * 4 : Nat) : Int) < ((w * h * 4 : Nat) : Int))
      = decide (0 < ((p : Nat) : Int) + ((w * 4 : Nat) : Int) ∧
          ((p : Nat) : Int) + ((w * 4 : Nat) : Int) < ((w * h * 4 : Nat) : Int)) :=
    decide_eq_decide.mpr (Iff.intro (fun hh => ⟨by omega, hh⟩) (fun hh => hh.2))
  rw [e1, e2, e3, e4]
  exact decide_eq_decide.mpr (by omega)

/-- Witness for the amended C2 theorem at the concrete image d2x. -/
theorem surrounded1_iff_amended_witness :
    (4 : Nat) < 2 * 2 * 4 ∧
    surrounded1 d2x 2 2 ((4 : Nat) : Int)
      = surroundedAmended d2x 2 2 ((4 : Nat) : Int) :=
  ⟨by decide, surrounded1_iff_amended d2x 2 2 4 (by decide)⟩

/-- Claim C6 (confirmed): for every image satisfying the buffer invariant and
every pixel whose radius 1 surroundedness gate on the decoded image is false,
processHorrorFilter leaves all four bytes of the pixel unchanged; and every
pixel it does modify had its gate true and has alpha 255 in the output. -/
theorem horrorFilter_frame (img : JSImage) (p : Nat)
    (hlen : img.data.length = img.width * img.height * 4)
    (hp : p < img.width * img.height) :
    (surrounded1 img.data img.width img.height ((4 * p : Nat) : Int) = false →
      ∀ j, j < 4 →
        (processHorrorFilter img).data[4 * p + j]? = img.data[4 * p + j]?)
    ∧ ((∃ j, j < 4 ∧
        (processHorrorFilter img).data[4 * p + j]? ≠ img.data[4 * p + j]?) →
      surrounded1 img.data img.width img.height ((4 * p : Nat) : Int) = true ∧
        (processHorrorFilter img).data[4 * p + 3]? = some 255) :=
  horror_scan_frame img.width img.height img.data p hlen hp

/-- Witness for the C6 theorem at a concrete 1 by 1 image. -/
theorem horrorFilter_frame_witness :
    (([7, 8, 9, 10] : List Nat).length = 1 * 1 * 4 ∧ (0 : Nat) < 1 * 1) ∧
    (processHorrorFilter ⟨1, 1, [7, 8, 9, 10]⟩).data[0]? = ([7, 8, 9, 10] : List Nat)[0]? :=
  ⟨⟨by decide, by decide⟩,
   (horrorFilter_frame ⟨1, 1, [7, 8, 9, 10]⟩ 0 (by decide) (by decide)).1
     (by decide) 0 (by decide)⟩

/-! Pixel lookups through crop and composite layers. -/

theorem getD_range_map (f : Nat → Nat) (n m : Nat) (h : m < n) :
    ((List.range n).map f).getD m 0 = f m := by
  rw [List.getD_eq_getElem?_getD, List.getElem?_map, List.getElem?_range h]
  rfl

theorem pix_lt (x y cw ch : Nat) (hx : x < cw) (hy : y < ch) :
    y * cw + x < cw * ch := by
  calc y * cw + x < y * cw + cw := by omega
  _ = (y + 1) * cw := by ring
  _ ≤ ch * cw := Nat.mul_le_mul_right cw (by omega)
  _ = cw * ch := Nat.mul_comm ch cw

theorem divW_modW (x y W : Nat) (hx : x < W) :
    (y * W + x) / W = y ∧ (y * W + x) % W = x := by
  constructor
  · rw [Nat.mul_comm y W, Nat.mul_add_div (by omega), Nat.div_eq_of_lt hx]
    omega
  · rw [Nat.mul_comm y W, Nat.mul_add_mod, Nat.mod_eq_of_lt hx]


theorem byteGet_cropImage (img : JSImage) (x0 y0 cw ch m : Nat)
    (hm : m < cw * ch * 4) :
    byteGet (cropImage img x0 y0 cw ch) m
      = byteGet img (4 * ((y0 + m / 4 / cw) * img.width + (x0 + m / 4 % cw)) + m % 4) := by
  show ((List.range (cw * ch * 4)).map _).getD m 0 = _
  rw [getD_range_map _ _ _ hm]

theorem pixelAt_cropImage (img : JSImage) (x0 y0 cw ch x y : Nat)
    (hx : x < cw) (hy : y < ch) :
    pixelAt (cropImage img x0 y0 cw ch) x y = pixelAt img (x0 + x) (y0 + y) := by
  have hq : y * cw + x < cw * ch := pix_lt x y cw ch hx hy
  have key : ∀ j, j < 4 →
      byteGet (cropImage img x0 y0 cw ch) (4 * (y * cw + x) + j)
        = byteGet img (4 * ((y0 + y) * img.width + (x0 + x)) + j) := by
    intro j hj
    rw [byteGet_cropImage img x0 y0 cw ch _ (by omega)]
    have d1 : (4 * (y * cw + x) + j) / 4 = y * cw + x := by omega
    have m1 : (4 * (y * cw + x) + j) % 4 = j := by omega
    rw [d1, m1, (divW_modW x y cw hx).1, (divW_modW x y cw hx).2]
  have k0 : byteGet (cropImage img x0 y0 cw ch) (4 * (y * cw + x))
      = byteGet img (4 * ((y0 + y) * img.width + (x0 + x))) := key 0 (by omega)
  have k1 := key 1 (by omega)
  have k2 := key 2 (by omega)
  have k3 := key 3 (by omega)
  have expand : pixelAt (cropImage img x0 y0 cw ch) x y
      = (byteGet (cropImage img x0 y0 cw ch) (4 * (y * cw + x)),
         byteGet (cropImage img x0 y0 cw ch) (4 * (y * cw + x) + 1),
         byteGet (cropImage img x0 y0 cw ch) (4 * (y * cw + x) + 2),
         byteGet (cropImage img x0 y0 cw ch) (4 * (y * cw + x) + 3)) := rfl
  rw [expand, k0, k1, k2, k3]
  rfl

theorem byteGet_compositeLayer (base src : JSImage) (xo yo m : Nat)
    (hm : m < base.width * base.height * 4) :
    byteGet (compositeLayer base src xo yo) m
      = if xo ≤ m / 4 % base.width ∧ m / 4 % base.width < xo + src.width ∧
          yo ≤ m / 4 / base.width ∧ m / 4 / base.width < yo + src.height then
          blendByte (pixelAt src (m / 4 % base.width - xo) (m / 4 / base.width - yo))
            (pixelAt base (m / 4 % base.width) (m / 4 / base.width)) (m % 4)
        else byteGet base m := by
  show ((List.range (base.width * base.height * 4)).map _).getD m 0 = _
  rw [getD_range_map _ _ _ hm]

theorem pixelAt_compositeLayer_covered (base src : JSImage) (x y : Nat)
    (hxb : x < base.width) (hyb : y < base.height)
    (hxs : x < src.width) (hys : y < src.height) :
    pixelAt (compositeLayer base src 0 0) x y
      = blendPixel (pixelAt src x y) (pixelAt base x y) := by
  have hq : y * base.width + x < base.width * base.height :=
    pix_lt x y base.width base.height hxb hyb
  have key : ∀ j, j < 4 →
      byteGet (compositeLayer base src 0 0) (4 * (y * base.width + x) + j)
        = blendByte (pixelAt src x y) (pixelAt base x y) j := by
    intro j hj
    rw [byteGet_compositeLayer base src 0 0 _ (by omega)]
    have d1 : (4 * (y * base.width + x) + j) / 4 = y * base.width + x := by omega
    have m1 : (4 * (y * base.width + x) + j) % 4 = j := by omega
    rw [d1, m1, (divW_modW x y base.width hxb).1, (divW_modW x y base.width hxb).2]
    rw [if_pos ⟨Nat.zero_le x, by omega, Nat.zero_le y, by omega⟩]
    rfl
  have k0 : byteGet (compositeLayer base src 0 0) (4 * (y * base.width + x))
      = blendByte (pixelAt src x y) (pixelAt base x y) 0 := key 0 (by omega)
  have k1 := key 1 (by omega)
  have k2 := key 2 (by omega)
  have k3 := key 3 (by omega)
  have expand : pixelAt (compositeLayer base src 0 0) x y
      = (byteGet (compositeLayer base src 0 0) (4 * (y * base.width + x)),
         byteGet (compositeLayer base src 0 0) (4 * (y * base.width + x) + 1),
         byteGet (compositeLayer base src 0 0) (4 * (y * base.width + x) + 2),
         byteGet (compositeLayer base src 0 0) (4 * (y * base.width + x) + 3)) := rfl
  rw [expand, k0, k1, k2, k3]
  rfl

theorem blendPixel_opaque (s b : Nat × Nat × Nat × Nat) (h : s.2.2.2 = 255) :
    blendPixel s b = s := by
  unfold blendPixel
  rw [if_pos h]

def img150 : JSImage := ⟨150, 1, List.replicate 600 0⟩

/-- Claim C3 counterexample: for a 150 pixel wide input, processBlueImage
crops with jimp crop(50, 0, width - 50, height), whose third argument is the
kept width, so the blue output is 100 pixels wide, not 150 - 100 = 50 as the
claim states. -/
theorem blue_crop_cex :
    (processBlueImage img150).width = 150 - 50 ∧
    ¬ (processBlueImage img150).width = 150 - 100 :=
  ⟨rfl, by decide⟩

/-- Claim C3 (amended): after the scan, Red and Green crop to the region
[0, width - 50) by [0, height) of the scanned image, and Blue crops to
[50, width) by [0, height): all three outputs have width inputWidth - 50 and
height inputHeight, and the blue output pixel (x, y) is scanned pixel
(50 + x, y). -/
theorem highlight_crop_regions (img : JSImage) (hw : 50 ≤ img.width) :
    ((processRedImage img).width = img.width - 50 ∧
      (processRedImage img).height = img.height ∧
      (processGreenImage img).width = img.width - 50 ∧
      (processGreenImage img).height = img.height ∧
      (processBlueImage img).width = img.width - 50 ∧
      (processBlueImage img).height = img.height) ∧
    ∀ x y, x < img.width - 50 → y < img.height →
      (pixelAt (processRedImage img) x y
          = pixelAt ⟨img.width, img.height, redScan img.width img.height img.data⟩ x y ∧
       pixelAt (processGreenImage img) x y
          = pixelAt ⟨img.width, img.height, greenScan img.width img.height img.data⟩ x y ∧
       pixelAt (processBlueImage img) x y
          = pixelAt ⟨img.width, img.height, blueScan img.width img.height img.data⟩
              (50 + x) y) := by
  refine ⟨⟨rfl, rfl, rfl, rfl, rfl, rfl⟩, ?_⟩
  intro x y hx hy
  refine ⟨?_, ?_, ?_⟩
  · have e := pixelAt_cropImage
      ⟨img.width, img.height, redScan img.width img.height img.data⟩ 0 0
      (img.width - 50) img.height x y hx hy
    simpa using e
  · have e := pixelAt_cropImage
      ⟨img.width, img.height, greenScan img.width img.height img.data⟩ 0 0
      (img.width - 50) img.height x y hx hy
    simpa using e
  · have e := pixelAt_cropImage
      ⟨img.width, img.height, blueScan img.width img.height img.data⟩ 50 0
      (img.width - 50) img.height x y hx hy
    simpa using e

def img51z : JSImage := ⟨51, 1, List.replicate 204 0⟩

/-- Witness for the amended C3 theorem at a concrete 51 by 1 image. -/
theorem highlight_crop_regions_witness :
    50 ≤ img51z.width ∧
    (processBlueImage img51z).width = img51z.width - 50 ∧
    pixelAt (processBlueImage img51z) 0 0
      = pixelAt ⟨img51z.width, img51z.height,
          blueScan img51z.width img51z.height img51z.data⟩ (50 + 0) 0 :=
  ⟨by decide,
   (highlight_crop_regions img51z (by decide)).1.2.2.2.2.1,
   ((highlight_crop_regions img51z (by decide)).2 0 0 (by decide) (by decide)).2.2⟩

/-- Claim C4 (confirmed): the Compositor starts from a clone of the decoded
image, layers blue then red at (0, 0), then crops to
[0, width - 50) by [0, height); the output is (inputWidth - 50) by
inputHeight and wherever the red highlight result is opaque the composite
pixel equals the red pixel. -/
theorem compositor_shape (img : JSImage) (hw : 50 ≤ img.width) :
    (compositeOutput img).width = img.width - 50 ∧
    (compositeOutput img).height = img.height ∧
    ∀ x y, x < img.width - 50 → y < img.height →
      (pixelAt (processRedImage img) x y).2.2.2 = 255 →
      pixelAt (compositeOutput img) x y = pixelAt (processRedImage img) x y := by
  refine ⟨rfl, rfl, ?_⟩
  intro x y hx hy ha
  have hcrop : pixelAt (compositeOutput img) x y
      = pixelAt (compositeLayer (compositeLayer img (processBlueImage img) 0 0)
          (processRedImage img) 0 0) x y := by
    have e := pixelAt_cropImage
      (compositeLayer (compositeLayer img (processBlueImage img) 0 0)
        (processRedImage img) 0 0) 0 0 (img.width - 50) img.height x y hx hy
    simpa using e
  have hxb : x < (compositeLayer img (processBlueImage img) 0 0).width := by
    show x < img.width
    omega
  have hyb : y < (compositeLayer img (processBlueImage img) 0 0).height := by
    show y < img.height
    exact hy
  have hxs : x < (processRedImage img).width := hx
  have hys : y < (processRedImage img).height := hy
  have hlay := pixelAt_compositeLayer_covered
    (compositeLayer img (processBlueImage img) 0 0) (processRedImage img) x y
    hxb hyb hxs hys
  rw [hcrop, hlay, blendPixel_opaque _ _ ha]

def img51 : JSImage := ⟨51, 1, [200, 0, 0, 255] ++ List.replicate 200 0⟩

set_option maxRecDepth 100000 in
/-- Witness for the C4 theorem at a concrete 51 by 1 image whose pixel (0,0)
is opaque in the red highlight result. -/
theorem compositor_shape_witness :
    (50 ≤ img51.width ∧ (pixelAt (processRedImage img51) 0 0).2.2.2 = 255) ∧
    (compositeOutput img51).width = img51.width - 50 ∧
    pixelAt (compositeOutput img51) 0 0 = pixelAt (processRedImage img51) 0 0 :=
  ⟨⟨by decide, by decide⟩,
   (compositor_shape img51 (by decide)).1,
   (compositor_shape img51 (by decide)).2.2 0 0 (by decide) (by decide) (by decide)⟩

def gA : JSImage := ⟨1, 1, [0, 255, 0, 255]⟩

def gB : JSImage := ⟨1, 1, [0, 0, 0, 0]⟩

def rOp : JSImage := ⟨1, 1, [255, 0, 0, 255]⟩

def bOp : JSImage := ⟨1, 1, [0, 0, 255, 255]⟩

def tr0 : JSImage := ⟨1, 1, [0, 0, 0, 0]⟩

/-- Claim C5 counterexample: replacing the green highlight result by a
different buffer leaves the composite output identical, because the composite
step of loadFolder layers only blueImage and redImage; the green buffer is
not an input of the composite. -/
theorem composite_green_cex :
    gA ≠ gB ∧
    compositorStepAll img51z rOp gA bOp = compositorStepAll img51z rOp gB bOp :=
  ⟨by decide, rfl⟩

set_option maxRecDepth 1000000 in
/-- Claim C5 (amended): only the Red and Blue highlight results feed into the
Compositor along with the original: the composite output is independent of
the Green highlight buffer for every input, while for some inputs changing
the Red buffer or the Blue buffer changes the composite output. -/
theorem compositor_inputs :
    (∀ o r b g1 g2 : JSImage, compositorStepAll o r g1 b = compositorStepAll o r g2 b) ∧
    (∃ o b r1 r2 : JSImage, compositorStep o b r1 ≠ compositorStep o b r2) ∧
    (∃ o r b1 b2 : JSImage, compositorStep o b1 r ≠ compositorStep o b2 r) :=
  ⟨fun _ _ _ _ _ => rfl,
   ⟨img51z, tr0, rOp, tr0, by decide⟩,
   ⟨img51z, tr0, bOp, tr0, by decide⟩⟩

theorem set_append_length (s : List JSImage) (x y : JSImage) :
    (s ++ [x]).set s.length y = s ++ [y] := by
  induction s with
  | nil => rfl
  | cons a t ih =>
    show a :: ((t ++ [x]).set t.length y) = a :: (t ++ [y])
    rw [ih]

/-- A filter invocation appends a fresh cell holding the filter body applied
to the cloned value of the source cell; the source cell itself is not
written. -/
theorem applyFilter_eq (body : JSImage → JSImage) (s : List JSImage) (r : Nat) :
    applyFilter body s r = (s ++ [body (s.getD r default)], s.length) := by
  unfold applyFilter cloneAt
  have h1 : (s ++ [s.getD r default]).getD s.length default = s.getD r default := by
    rw [List.getD_eq_getElem?_getD, List.getElem?_append_right (Nat.le_refl s.length)]
    simp
  show ((s ++ [s.getD r default]).set s.length
      (body ((s ++ [s.getD r default]).getD s.length default)), s.length) = _
  rw [h1, set_append_length]

/-- The whole store after one per-file pipeline run, cell by cell. -/
theorem runPipelineStore_eq (img : JSImage) :
    runPipelineStore img
      = [img, compositorStep img (processBlueImage img) (processRedImage img),
         edgeDetectBody img, sharpenBody img, processHorrorFilter img,
         processRedImage img, processGreenImage img, processBlueImage img] := by
  unfold runPipelineStore
  simp only [applyFilter_eq, cloneAt, List.cons_append, List.nil_append,
    List.getD_cons_zero, List.getD_cons_succ, List.length_cons, List.length_nil,
    List.set_cons_succ, List.set_cons_zero]

/-- Claim C7 (confirmed): in the store model of loadFolder, the decoded image
cell is unchanged by all six filter invocations and by the composite step,
and every filter body is applied to a clone holding exactly the decoded
pixels, so each filter receives the original pixel values as input. -/
theorem pipeline_filters_see_original (img : JSImage) :
    (runPipelineStore img).getD 0 default = img ∧
    (runPipelineStore img).getD 2 default = edgeDetectBody img ∧
    (runPipelineStore img).getD 3 default = sharpenBody img ∧
    (runPipelineStore img).getD 4 default = processHorrorFilter img ∧
    (runPipelineStore img).getD 5 default = processRedImage img ∧
    (runPipelineStore img).getD 6 default = processGreenImage img ∧
    (runPipelineStore img).getD 7 default = processBlueImage img ∧
    (runPipelineStore img).getD 1 default
      = compositorStep img (processBlueImage img) (processRedImage img) := by
  rw [runPipelineStore_eq]
  exact ⟨rfl, rfl, rfl, rfl, rfl, rfl, rfl, rfl⟩

/-- Claim C8 counterexample: in both failure cases the program prints two
lines, not one: a shared first line followed by the case-distinguishing
second line. -/
theorem cli_diag_not_oneline_cex :
    (mainEntry ["node", "ip.js"] (fun _ => false)).1
      = ["Error loading from folder.", "No folder name found; check arguments."] ∧
    ¬ (mainEntry ["node", "ip.js"] (fun _ => false)).1.length = 1 ∧
    (mainEntry ["node", "ip.js", "missing"] (fun _ => false)).1
      = ["Error loading from folder.", "Folder not found or could not be read."] ∧
    ¬ (mainEntry ["node", "ip.js", "missing"] (fun _ => false)).1.length = 1 ∧
    (mainEntry ["node", "ip.js"] (fun _ => false)).2 = false ∧
    (mainEntry ["node", "ip.js", "missing"] (fun _ => false)).2 = false :=
  ⟨rfl, by decide, rfl, by decide, rfl, rfl⟩

/-- Claim C8 (amended): when no folder argument is supplied, or the argument
path does not exist, no image processing runs and the program prints a
two-line diagnostic whose second line distinguishes the no-argument case from
the path-not-found case. -/
theorem cli_diagnostics (argv : List String) (existsFn : String → Bool) :
    (argv.length < 3 →
      mainEntry argv existsFn
        = (["Error loading from folder.", "No folder name found; check arguments."],
            false)) ∧
    (3 ≤ argv.length → existsFn (argv.getD 2 "") = false →
      mainEntry argv existsFn
        = (["Error loading from folder.", "Folder not found or could not be read."],
            false)) := by
  constructor
  · intro hlen
    have hb : (decide (3 ≤ argv.length) && existsFn (argv.getD 2 "")) = false := by
      rw [decide_eq_false (by omega : ¬ (3 ≤ argv.length))]
      rfl
    unfold mainEntry errorHandle
    rw [if_neg (by rw [hb]; simp), if_neg (by omega : ¬ (3 ≤ argv.length))]
  · intro hlen hex
    have hb : (decide (3 ≤ argv.length) && existsFn (argv.getD 2 "")) = false := by
      rw [hex, Bool.and_false]
    unfold mainEntry errorHandle
    rw [if_neg (by rw [hb]; simp), if_pos hlen]

/-- Witness for the amended C8 theorem at a concrete argument vector for each
of the two cases. -/
theorem cli_diagnostics_witness :
    (mainEntry ["node", "ip.js"] (fun _ => false)
      = (["Error loading from folder.", "No folder name found; check arguments."],
          false)) ∧
    (mainEntry ["node", "ip.js", "x"] (fun _ => false)
      = (["Error loading from folder.", "Folder not found or could not be read."],
          false)) :=
  ⟨(cli_diagnostics ["node", "ip.js"] (fun _ => false)).1 (by decide),
   (cli_diagnostics ["node", "ip.js", "x"] (fun _ => false)).2 (by decide) rfl⟩

/-- Once the threshold is negative enough, all four guarded neighbour checks
of the recursive branch fail: the east, west and south reads have left the
buffer and the north guard is false. -/
theorem countR_zero (d : List Nat) (w h : Nat) (p t : Int)
    (h1 : p + 4 * t + 2 < 0)
    (h2 : (d.length : Int) ≤ p - 4 * t)
    (h3 : p - (((w * 4 : Nat) : Int) - t) ≤ 0)
    (h4 : p + ((w * 4 : Nat) : Int) + t + 2 < 0) :
    countR d w h p t = 0 := by
  unfold countR
  rw [isPixelColored_of_neg d _ (by omega),
    isPixelColored_of_ge d _ (by omega),
    isPixelColored_of_neg d (p + ((w * 4 : Nat) : Int) + t) (by omega),
    decide_eq_false (by omega : ¬ (0 < p - (((w * 4 : Nat) : Int) - t)))]
  simp

/-- Claim C9 counterexample: at radius 0 on a fully colored 2 by 2 image the
recursion terminates within depth 5 and returns false, since the neighbour
count falls below 2 once the offsets leave the buffer and the &&
short-circuits; radius ≤ 0 therefore does not make the call diverge. -/
theorem radius_zero_terminates_cex :
    isPixelSurroundedFuel (List.replicate 16 255) 2 2 4 5 0 = some false := by
  decide

/-- Claim C9 (amended): for every radius ≥ 1, isPixelSurrounded terminates
with recursion depth equal to the radius, the recursive branch calling itself
only with radius - 1, strictly decreasing toward the base case radius = 1;
and contrary to the claimed precondition the function is also total for
radius ≤ 0, because the neighbour count eventually drops below 2 once the
offsets leave the buffer and the && short-circuits the recursion. -/
theorem isPixelSurrounded_total (d : List Nat) (w h : Nat) (p : Int) :
    (∀ t : Int, 1 ≤ t → ∃ b, isPixelSurroundedFuel d w h p t.toNat t = some b) ∧
    (∀ t : Int, t ≤ 0 → ∃ fuel b, isPixelSurroundedFuel d w h p fuel t = some b) := by
  have part1 : ∀ n : Nat, ∀ t : Int, 1 ≤ t → t.toNat = n →
      ∃ b, isPixelSurroundedFuel d w h p n t = some b := by
    intro n
    induction n with
    | zero => intro t ht htn; exact absurd htn (by omega)
    | succ n ih =>
      intro t ht htn
      by_cases h1 : t = 1
      · subst h1
        exact ⟨surrounded1 d w h p, by unfold isPixelSurroundedFuel; rw [if_pos rfl]⟩
      · by_cases hc : 2 ≤ countR d w h p t
        · obtain ⟨b, hb⟩ := ih (t - 1) (by omega) (by omega)
          refine ⟨b, ?_⟩
          unfold isPixelSurroundedFuel
          rw [if_neg h1, if_pos hc]
          exact hb
        · refine ⟨false, ?_⟩
          unfold isPixelSurroundedFuel
          rw [if_neg h1, if_neg hc]
  set B : Int := (p.natAbs : Int) + (d.length : Int) + ((w * 4 : Nat) : Int) + 3 with hB
  have hzero : ∀ t : Int, t ≤ -B → countR d w h p t = 0 := by
    intro t ht
    exact countR_zero d w h p t (by omega) (by omega) (by omega) (by omega)
  have part2core : ∀ n : Nat, ∀ t : Int, t ≤ 0 → (t + B).toNat = n →
      ∃ b, isPixelSurroundedFuel d w h p (n + 1) t = some b := by
    intro n
    induction n with
    | zero =>
      intro t ht htn
      have hc0 := hzero t (by omega)
      refine ⟨false, ?_⟩
      unfold isPixelSurroundedFuel
      rw [if_neg (by omega : ¬ (t = 1)),
        if_neg (by omega : ¬ (2 ≤ countR d w h p t))]
    | succ n ih =>
      intro t ht htn
      by_cases hc : 2 ≤ countR d w h p t
      · obtain ⟨b, hb⟩ := ih (t - 1) (by omega) (by omega)
        refine ⟨b, ?_⟩
        unfold isPixelSurroundedFuel
        rw [if_neg (by omega : ¬ (t = 1)), if_pos hc]
        exact hb
      · refine ⟨false, ?_⟩
        unfold isPixelSurroundedFuel
        rw [if_neg (by omega : ¬ (t = 1)), if_neg hc]
  exact ⟨fun t ht => part1 t.toNat t ht rfl,
    fun t ht => ⟨(t + B).toNat + 1, part2core (t + B).toNat t ht rfl⟩⟩

/-- Witness for the amended C9 theorem: a terminating run at radius 2 and a
terminating run at radius 0. -/
theorem isPixelSurrounded_total_witness :
    (∃ b, isPixelSurroundedFuel [] 0 0 0 (Int.toNat 2) 2 = some b) ∧
    (∃ fuel b, isPixelSurroundedFuel [] 0 0 0 fuel 0 = some b) :=
  ⟨(isPixelSurrounded_total [] 0 0 0).1 2 (by omega),
   (isPixelSurrounded_total [] 0 0 0).2 0 (by omega)⟩

theorem readByte_isSome_of (d : List Nat) (i : Int) (h0 : 0 ≤ i)
    (h1 : i < (d.length : Int)) : (readByte d i).isSome = true := by
  rw [readByte_of_nonneg d i h0]
  simp [List.getElem?_eq_getElem (show i.toNat < d.length by omega)]

/-- Claim C10 (confirmed): for a pixel offset that is a multiple of 4 inside
[0, width*height*4) of a buffer satisfying the length invariant, each guarded
isPixelColored call of the radius 1 branch reads only bytes inside the
buffer: under each guard the three byte reads at the neighbour offset plus
0, 1, 2 are all defined, so the undefined-read branch of readByte is
unreachable there. -/
theorem guarded_reads_in_bounds (d : List Nat) (w h : Nat) (p : Nat)
    (hlen : d.length = w * h * 4) (hmod : p % 4 = 0) (hp : p < w * h * 4) :
    (((p : Int) + 4 < ((w * h * 4 : Nat) : Int)) →
      ((readByte d ((p : Int) + 4)).isSome = true ∧
       (readByte d ((p : Int) + 4 + 1)).isSome = true ∧
       (readByte d ((p : Int) + 4 + 2)).isSome = true)) ∧
    ((0 < (p : Int) - 4) →
      ((readByte d ((p : Int) - 4)).isSome = true ∧
       (readByte d ((p : Int) - 4 + 1)).isSome = true ∧
       (readByte d ((p : Int) - 4 + 2)).isSome = true)) ∧
    ((0 < (p : Int) - ((w * 4 : Nat) : Int)) →
      ((readByte d ((p : Int) - ((w * 4 : Nat) : Int))).isSome = true ∧
       (readByte d ((p : Int) - ((w * 4 : Nat) : Int) + 1)).isSome = true ∧
       (readByte d ((p : Int) - ((w * 4 : Nat) : Int) + 2)).isSome = true)) ∧
    (((p : Int) + ((w * 4 : Nat) : Int) < ((w * h * 4 : Nat) : Int)) →
      ((readByte d ((p : Int) + ((w * 4 : Nat) : Int))).isSome = true ∧
       (readByte d ((p : Int) + ((w * 4 : Nat) : Int) + 1)).isSome = true ∧
       (readByte d ((p : Int) + ((w * 4 : Nat) : Int) + 2)).isSome = true)) := by
  have hL4 : (w * h * 4) % 4 = 0 := by omega
  have hW4 : (w * 4) % 4 = 0 := by omega
  refine ⟨fun hg => ⟨?_, ?_, ?_⟩, fun hg => ⟨?_, ?_, ?_⟩,
    fun hg => ⟨?_, ?_, ?_⟩, fun hg => ⟨?_, ?_, ?_⟩⟩ <;>
    exact readByte_isSome_of d _ (by omega) (by omega)

/-- Witness for the C10 theorem on a concrete 2 by 2 buffer at pixel offset
4, exercising the east guard. -/
theorem guarded_reads_in_bounds_witness :
    (List.replicate 16 0 : List Nat).length = 2 * 2 * 4 ∧
    (readByte (List.replicate 16 0) (((4 : Nat) : Int) + 4)).isSome = true :=
  ⟨by decide,
   ((guarded_reads_in_bounds (List.replicate 16 0) 2 2 4 (by decide) (by decide)
      (by decide)).1 (by decide)).1⟩
